import Mathlib

/-!
Verification of the psi-gen day/scene progression engine.

The definitions below are a shallow embedding of the game's core:
the data model (`Effect`, `GOption`, `Scene`, `Day`, `GameState`), the
effect accumulation and scoring functions (`EffectCalculator` in
`game_architecture.py`), the submit / next-day transitions of the running
game controller (`MainGame` in `main.py`, which overrides the base
`DaySceneGame` methods and is the code that executes), the save/load
snapshot (`GameSaveManager`), and the content loader's scene-option
resolution (`DataLoader.get_scene` / `load_scene`).

Numeric values are modelled as rationals (`Rat`): the Python code uses
floats but every claim under scrutiny concerns exact arithmetic on the
values, not rounding.  Python dicts are modelled as insertion-ordered
association lists with unique keys, which matches dict iteration and
update semantics.  Mutable object identity, where a claim depends on it
(sharing of `Effect` objects between the option catalog and scene
instances), is modelled separately with an explicit heap of cells
addressed by natural numbers.
-/

namespace PsiGen

/-- `Effect` dataclass (`effect.py`): a named numeric stat delta. -/
structure Effect where
  name : String
  value : Rat
deriving Repr, DecidableEq

/-- `Option` dataclass (`options.py`); named `GOption` because `Option`
is taken by Lean's core library. -/
structure GOption where
  name : String
  text : String
  effects : List Effect
  selected : Bool
deriving Repr, DecidableEq

/-- `SceneOutcome` dataclass (`scene.py`). -/
structure SceneOutcome where
  expected : List Effect
deriving Repr, DecidableEq

/-- `Scene` dataclass (`scene.py`).  `selected_options` exists on the
Python class but is never written by the engine; `calculated_effects`
is the runtime dict filled in at submission. -/
structure Scene where
  bg_images : List String
  fg_text : String
  stats : List (String × Rat)
  options : List GOption
  button_text : String
  outcome : SceneOutcome
  selected_options : List GOption := []
  calculated_effects : List (String × Rat) := []
deriving Repr, DecidableEq

/-- `Day` dataclass (`day.py`). -/
structure Day where
  text : String
  scenes : List Scene
deriving Repr, DecidableEq

/-- The scene result record built in `MainGame.on_submit` (`main.py`). -/
structure SceneResult where
  scene_index : Nat
  selected_options : List String
  effects : List (String × Rat)
  score : Rat
deriving Repr, DecidableEq

/-- `GameState` dataclass (`game_architecture.py`).  In the running game
(`MainGame`) each element of `day_results` is the list of scene result
records of one completed day. -/
structure GameState where
  current_day_index : Nat := 0
  current_scene_index : Nat := 0
  days : List Day := []
  global_stats : List (String × Rat) := []
  day_results : List (List SceneResult) := []
deriving Repr, DecidableEq

/-- The state of the running controller: `MainGame` (`main.py`) extends
`DaySceneGame` with the in-progress list `current_day_results`. -/
structure MainGame where
  state : GameState
  current_day_results : List SceneResult := []
deriving Repr, DecidableEq

/-- Lookup in an insertion-ordered association list: Python's
`d[k]` / `k in d` on a dict with unique keys. -/
def dictGet? {α : Type} : List (String × α) → String → Option α
  | [], _ => none
  | (k, v) :: rest, n => if k = n then some v else dictGet? rest n

/-- Python dict update `d[name] = d.get(name, 0) + v` as performed by
`calculate_scene_effects`: an existing key is updated in place, a new
key is appended at the end (dict insertion order). -/
def dictAdd : List (String × Rat) → String → Rat → List (String × Rat)
  | [], n, v => [(n, v)]
  | (k, x) :: rest, n, v =>
    if k = n then (k, x + v) :: rest else (k, x) :: dictAdd rest n v

/-- Inner loop of `EffectCalculator.calculate_scene_effects`: add every
effect of one option into the accumulator dict. -/
def addOptionEffects : List (String × Rat) → List Effect → List (String × Rat)
  | m, [] => m
  | m, e :: rest => addOptionEffects (dictAdd m e.name e.value) rest

/-- Outer loop of `EffectCalculator.calculate_scene_effects`: fold over
the scene's options in authoring order, taking only selected ones. -/
def accumOptions : List (String × Rat) → List GOption → List (String × Rat)
  | m, [] => m
  | m, o :: rest =>
    accumOptions (if o.selected then addOptionEffects m o.effects else m) rest

/-- `EffectCalculator.calculate_scene_effects`
(`game_architecture.py`, lines 341-352). -/
def calculate_scene_effects (scene : Scene) : List (String × Rat) :=
  accumOptions [] scene.options

/-- One iteration of the loop in `EffectCalculator.compare_with_expected`:
if the expected name is present in the calculated dict, add
`max(0, 100 - |calculated[name] - expected.value| * 10)` to the score. -/
def scoreStep (calculated : List (String × Rat)) (score : Rat) (e : Effect) : Rat :=
  match dictGet? calculated e.name with
  | some v => score + max 0 (100 - |v - e.value| * 10)
  | none => score

/-- `EffectCalculator.compare_with_expected`
(`game_architecture.py`, lines 354-365). -/
def compare_with_expected (calculated : List (String × Rat)) (expected : List Effect) : Rat :=
  expected.foldl (scoreStep calculated) 0

/-- Specification-side helper: the sum of the values of the effects
named `n` in a list of effects. -/
def effectSum : List Effect → String → Rat
  | [], _ => 0
  | e :: rest, n => (if e.name = n then e.value else 0) + effectSum rest n

/-- Specification-side helper: total contribution of name `n` over the
selected options of a list. -/
def selectedEffectSum : List GOption → String → Rat
  | [], _ => 0
  | o :: rest, n =>
    (if o.selected then effectSum o.effects n else 0) + selectedEffectSum rest n

/-- Does some effect in the list carry the name `n`? -/
def effectMentions : List Effect → String → Bool
  | [], _ => false
  | e :: rest, n => if e.name = n then true else effectMentions rest n

/-- Does some selected option of the list carry an effect named `n`? -/
def selectedMentions : List GOption → String → Bool
  | [], _ => false
  | o :: rest, n =>
    (o.selected && effectMentions o.effects n) || selectedMentions rest n

/-- Specification-side helper: the contribution of a single expected
entry to the score. -/
def entryScore (calculated : List (String × Rat)) (e : Effect) : Rat :=
  match dictGet? calculated e.name with
  | some v => max 0 (100 - |v - e.value| * 10)
  | none => 0

/-! ## Persistence (`GameSaveManager`, `game_architecture.py` lines 367-387) -/

/-- The snapshot written by `GameSaveManager.save_game`: exactly the four
keys `current_day`, `current_scene`, `global_stats`, `day_results`. -/
structure SaveData where
  current_day : Nat
  current_scene : Nat
  global_stats : List (String × Rat)
  day_results : List (List SceneResult)
deriving Repr, DecidableEq

/-- `GameSaveManager.save_game`: build the snapshot from the state.
(The YAML encoding and file write are I/O glue outside the model.) -/
def save_game (state : GameState) : SaveData :=
  { current_day := state.current_day_index
    current_scene := state.current_scene_index
    global_stats := state.global_stats
    day_results := state.day_results }

/-- `GameSaveManager.load_game`: return the raw stored mapping. -/
def load_game (blob : SaveData) : SaveData := blob

/-! ## Progression transitions (`MainGame` in `main.py`)

`MainGame.on_submit` and `MainGame.next_day` override the base
`DaySceneGame` methods and are the code that runs.  A transition returns
the post-call state together with `some indexError` when the Python code
would raise an uncaught `IndexError` (list subscript out of range); the
returned state reflects every mutation performed before the raise. -/

/-- The one uncontrolled failure the transition code can raise: a Python
`IndexError` from `days[i]` / `scenes[i]` subscripting. -/
inductive PyError where
  | indexError
deriving Repr, DecidableEq

/-- `MainGame.on_submit` (`main.py` lines 183-209).  Reads the current
scene, accumulates effects, stores them in `scene.calculated_effects`,
computes the score, appends the scene result record to
`current_day_results`, and increments `current_scene_index`.  The final
branch only swaps the view (day summary or next scene) and performs no
further state mutation. -/
def MainGame.on_submit (g : MainGame) : MainGame × Option PyError :=
  match g.state.days[g.state.current_day_index]? with
  | none => (g, some .indexError)
  | some day =>
    match day.scenes[g.state.current_scene_index]? with
    | none => (g, some .indexError)
    | some scene =>
      let effects := calculate_scene_effects scene
      let score := compare_with_expected effects scene.outcome.expected
      let scene_result : SceneResult :=
        { scene_index := g.state.current_scene_index
          selected_options := (scene.options.filter (fun o => o.selected)).map (fun o => o.name)
          effects := effects
          score := score }
      let day' := { day with
        scenes := day.scenes.set g.state.current_scene_index
          { scene with calculated_effects := effects } }
      ({ state := { g.state with
            days := g.state.days.set g.state.current_day_index day'
            current_scene_index := g.state.current_scene_index + 1 }
         current_day_results := g.current_day_results ++ [scene_result] }, none)

/-- `MainGame.next_day` (`main.py` lines 219-229).  Appends the finished
day's result list to `day_results`, clears the in-progress list, bumps
the day index, resets the scene index, then either loads scene 0 of the
new day (an `IndexError` if that day has no scenes) or shows the
game-complete view. -/
def MainGame.next_day (g : MainGame) : MainGame × Option PyError :=
  let st := { g.state with
    day_results := g.state.day_results ++ [g.current_day_results]
    current_day_index := g.state.current_day_index + 1
    current_scene_index := 0 }
  let g' : MainGame := { state := st, current_day_results := [] }
  if st.current_day_index < st.days.length then
    match st.days[st.current_day_index]? with
    | none => (g', some .indexError)
    | some day =>
      match day.scenes[0]? with
      | none => (g', some .indexError)
      | some _ => (g', none)
  else (g', none)

/-- Abstract state `InScene(d, s)` of the spec's progression machine:
the cursor sits on a valid scene `s` of a valid day `d`. -/
def MainGame.InScene (g : MainGame) (d s : Nat) : Prop :=
  g.state.current_day_index = d ∧ g.state.current_scene_index = s ∧
  ∃ day, g.state.days[d]? = some day ∧ s < day.scenes.length

/-- Abstract state `DaySummary(d)`: every scene of valid day `d` has
been submitted (the scene cursor equals the day's scene count). -/
def MainGame.DaySummary (g : MainGame) (d : Nat) : Prop :=
  g.state.current_day_index = d ∧
  ∃ day, g.state.days[d]? = some day ∧
    g.state.current_scene_index = day.scenes.length

/-- Abstract terminal state `Complete`: the day cursor has run past the
last day. -/
def MainGame.Complete (g : MainGame) : Prop :=
  g.state.days.length ≤ g.state.current_day_index

/-! ## Content loader, value view (`DataLoader.get_scene`,
`src/data_loader.py` lines 48-71; identical resolution logic in
`DataLoader.load_scene`, `game_architecture.py` lines 106-134) -/

/-- A parsed scene descriptor (the `scene_yaml` mapping handed to
`get_scene`). -/
structure SceneDesc where
  bg_images : List String
  fg_text : String
  stats : List (String × Rat)
  options : List String
  button_text : String
  outcome_expected : List Effect
deriving Repr, DecidableEq

/-- The option-resolution loop of `get_scene`: for each referenced name,
look it up in `options_cache`; a hit appends a fresh `Option` with the
same name/text, a copy of the effects list and `selected = false`
(the dataclass default); a miss is skipped silently. -/
def resolveOptions (cache : List (String × GOption)) : List String → List GOption
  | [] => []
  | n :: rest =>
    match dictGet? cache n with
    | some o => { name := o.name, text := o.text, effects := o.effects, selected := false }
        :: resolveOptions cache rest
    | none => resolveOptions cache rest

/-- `DataLoader.get_scene`: build the `Scene` from a descriptor,
resolving its option names against the catalog. -/
def get_scene (cache : List (String × GOption)) (d : SceneDesc) : Scene :=
  { bg_images := d.bg_images
    fg_text := d.fg_text
    stats := d.stats
    options := resolveOptions cache d.options
    button_text := d.button_text
    outcome := { expected := d.outcome_expected } }

/-- Well-formedness of `options_cache`: it is keyed by option name
(`load_options` stores `self.options_cache[option.name] = option`). -/
def CacheWF (cache : List (String × GOption)) : Prop :=
  ∀ p ∈ cache, (Prod.snd p).name = p.1

/-! ## Content loader, heap view (object identity)

The aliasing claims (sharing of `Effect` objects, independence of
`selected` flags) depend on Python object identity, which value
semantics cannot express.  Here options and effects live in a heap of
cells addressed by allocation order; a Python list of objects becomes a
list of addresses, and `list.copy()` — the shallow copy performed by
`get_scene` — becomes copying the address list while keeping the same
effect cells. -/

/-- A heap-allocated `Effect` object. -/
structure EffCell where
  name : String
  value : Rat
deriving Repr, DecidableEq

/-- A heap-allocated `Option` object: its `effects` list holds addresses
of `EffCell`s. -/
structure OptCell where
  name : String
  text : String
  effects : List Nat
  selected : Bool
deriving Repr, DecidableEq

/-- The object heap: effect cells and option cells, addressed by their
position (allocation order). -/
structure Heap where
  effCells : List EffCell
  optCells : List OptCell
deriving Repr, DecidableEq

/-- One record of `options.yaml` as consumed by `load_options`. -/
structure OptionRecord where
  name : String
  text : String
  effects : List EffCell
deriving Repr, DecidableEq

/-- `load_options` body for one record: allocate fresh `Effect` objects
(`Effect(**e)` builds a new object per entry) and a fresh catalog
`Option` referencing them; returns the new heap and the option's
address. -/
def allocOption (h : Heap) (r : OptionRecord) : Heap × Nat :=
  ({ effCells := h.effCells ++ r.effects
     optCells := h.optCells ++
       [{ name := r.name, text := r.text
          effects := (List.range r.effects.length).map (fun i => h.effCells.length + i)
          selected := false }] },
   h.optCells.length)

/-- The copy made by `get_scene` for one resolved option:
`Option(name=opt.name, text=opt.text, effects=opt.effects.copy())`.
A fresh `Option` object is allocated; `list.copy()` is shallow, so the
new object's `effects` list holds the same effect-cell addresses as the
catalog's. -/
def sceneOptionCopy (h : Heap) (a : Nat) : Heap × Nat :=
  match h.optCells[a]? with
  | some o =>
    ({ h with optCells := h.optCells ++
        [{ name := o.name, text := o.text, effects := o.effects, selected := false }] },
     h.optCells.length)
  | none => (h, a)

/-- The option-resolution loop of `get_scene` on the heap: each catalog
hit allocates one copied option object; misses are skipped. -/
def resolveSceneOptions (cache : List (String × Nat)) : Heap → List String → Heap × List Nat
  | h, [] => (h, [])
  | h, n :: rest =>
    match dictGet? cache n with
    | some a =>
      let p := sceneOptionCopy h a
      let q := resolveSceneOptions cache p.1 rest
      (q.1, p.2 :: q.2)
    | none => resolveSceneOptions cache h rest

/-- `OptionButton.on_mouse_press` (`game_architecture.py` line 217):
`self.option.selected = not self.option.selected`, an in-place toggle of
one option object. -/
def toggleSelected (h : Heap) (a : Nat) : Heap :=
  match h.optCells[a]? with
  | some o => { h with optCells := h.optCells.set a { o with selected := !o.selected } }
  | none => h

/-- In-place mutation of one `Effect` object's `value` field. -/
def setEffectValue (h : Heap) (a : Nat) (v : Rat) : Heap :=
  match h.effCells[a]? with
  | some c => { h with effCells := h.effCells.set a { c with value := v } }
  | none => h

/-- The effect objects an option at address `a` observes through its
address list. -/
def readOptionEffects (h : Heap) (a : Nat) : List EffCell :=
  match h.optCells[a]? with
  | some o => o.effects.filterMap (fun i => h.effCells[i]?)
  | none => []

/-- The `selected` flag of the option object at address `a`. -/
def selectedAt (h : Heap) (a : Nat) : Option Bool :=
  (h.optCells[a]?).map (fun o => o.selected)

/-- All catalog addresses lie inside the heap. -/
def CacheAddrWF (cache : List (String × Nat)) (h : Heap) : Prop :=
  ∀ p ∈ cache, p.2 < h.optCells.length

/-! ## Concrete data used by witnesses and counterexamples -/

/-- A selected option granting 10 gold. -/
def optionTake : GOption :=
  { name := "A", text := "take", effects := [{ name := "gold", value := 10 }], selected := true }

/-- An unselected option. -/
def optionPass : GOption :=
  { name := "B", text := "pass", effects := [{ name := "gold", value := 5 }], selected := false }

/-- A scene with one selected and one unselected option, expecting 10 gold. -/
def sceneTwoOptions : Scene :=
  { bg_images := [], fg_text := "choose", stats := [], options := [optionTake, optionPass]
    button_text := "go", outcome := { expected := [{ name := "gold", value := 10 }] } }

/-- A scene in which nothing is selected. -/
def sceneNoneSelected : Scene :=
  { bg_images := [], fg_text := "idle", stats := [], options := [optionPass]
    button_text := "go", outcome := { expected := [{ name := "gold", value := 10 }] } }

/-- A one-scene day. -/
def dayOne : Day := { text := "day 1", scenes := [sceneTwoOptions] }

/-- A fresh one-day game sitting in `InScene(0, 0)`. -/
def gameStart : MainGame := { state := { days := [dayOne] } }

/-- A game that has submitted the only scene of its only day:
`DaySummary(0)`. -/
def gameSummary : MainGame :=
  { state := { current_scene_index := 1, days := [dayOne] }
    current_day_results :=
      [{ scene_index := 0, selected_options := ["A"], effects := [("gold", 10)], score := 100 }] }

/-- A finished one-day game: the terminal state `Complete`. -/
def gameDone : MainGame :=
  { state := { current_day_index := 1, days := [dayOne]
               day_results :=
                 [[{ scene_index := 0, selected_options := ["A"]
                     effects := [("gold", 10)], score := 100 }]] } }

/-- A one-entry accumulated-effects dict matching `expectedGold`. -/
def calcGold : List (String × Rat) := [("gold", 10)]

/-- An expected-outcome list with a single entry. -/
def expectedGold : List Effect := [{ name := "gold", value := 10 }]

/-- A one-option catalog (value view) keyed by option name. -/
def cacheAlpha : List (String × GOption) :=
  [("alpha", { name := "alpha", text := "t", effects := [{ name := "gold", value := 10 }]
               selected := false })]

/-- A descriptor referencing one present and one absent option name. -/
def descMixed : SceneDesc :=
  { bg_images := [], fg_text := "d", stats := [], options := ["alpha", "ghost"]
    button_text := "go", outcome_expected := [{ name := "gold", value := 10 }] }

/-- `options.yaml` record for the heap model. -/
def recordAlpha : OptionRecord :=
  { name := "alpha", text := "t", effects := [{ name := "gold", value := 10 }] }

/-- Heap after `load_options` on `recordAlpha`: one effect cell at
address 0, the catalog option object at address 0. -/
def heapCatalog : Heap := (allocOption { effCells := [], optCells := [] } recordAlpha).1

/-- Catalog mapping (heap view): option name to option-object address. -/
def cacheAddrAlpha : List (String × Nat) := [("alpha", 0)]

/-- Heap after resolving scene 1's single option reference: its copy
lives at option address 1. -/
def heapScene1 : Heap := (resolveSceneOptions cacheAddrAlpha heapCatalog ["alpha"]).1

/-- Heap after also resolving scene 2's single option reference: its
copy lives at option address 2. -/
def heapScene2 : Heap := (resolveSceneOptions cacheAddrAlpha heapScene1 ["alpha"]).1

/-- `heapScene2` after mutating the value of the effect object at
address 0 — the effect reached through scene 1's option. -/
def heapMutated : Heap := setEffectValue heapScene2 0 99

/-! ## Effect-engine lemmas -/

lemma dictGet_dictAdd_same (m : List (String × Rat)) (n : String) (v : Rat) :
    dictGet? (dictAdd m n v) n = some ((dictGet? m n).getD 0 + v) := by
  induction m with
  | nil => simp [dictAdd, dictGet?]
  | cons p rest ih =>
    obtain ⟨k, x⟩ := p
    by_cases h : k = n
    · subst h
      simp [dictAdd, dictGet?]
    · simp [dictAdd, dictGet?, h, ih]

lemma dictGet_dictAdd_ne (m : List (String × Rat)) (n : String) (v : Rat)
    (n' : String) (h : n' ≠ n) :
    dictGet? (dictAdd m n v) n' = dictGet? m n' := by
  have hn : ¬(n = n') := fun hc => h hc.symm
  induction m with
  | nil => simp [dictAdd, dictGet?, hn]
  | cons p rest ih =>
    obtain ⟨k, x⟩ := p
    by_cases hk : k = n
    · subst hk
      simp [dictAdd, dictGet?, hn]
    · simp only [dictAdd, if_neg hk]
      by_cases hk' : k = n'
      · simp [dictGet?, hk']
      · simp [dictGet?, hk', ih]

lemma effectSum_of_not_mentions (l : List Effect) (n : String)
    (h : effectMentions l n = false) : effectSum l n = 0 := by
  induction l with
  | nil => rfl
  | cons e rest ih =>
    by_cases he : e.name = n
    · simp [effectMentions, he] at h
    · simp only [effectMentions, if_neg he] at h
      simp [effectSum, he, ih h]

lemma dictGet_addOptionEffects (effs : List Effect) (m : List (String × Rat)) (n : String) :
    dictGet? (addOptionEffects m effs) n =
      if effectMentions effs n then some ((dictGet? m n).getD 0 + effectSum effs n)
      else dictGet? m n := by
  induction effs generalizing m with
  | nil => simp [addOptionEffects, effectMentions]
  | cons e rest ih =>
    simp only [addOptionEffects]
    rw [ih]
    by_cases he : e.name = n
    · subst he
      rw [dictGet_dictAdd_same]
      by_cases hr : effectMentions rest e.name = true
      · simp [effectMentions, effectSum, hr, add_assoc]
      · simp [effectMentions, effectSum, hr,
          effectSum_of_not_mentions rest e.name (by simpa using hr)]
    · rw [dictGet_dictAdd_ne m e.name e.value n (fun hc => he hc.symm)]
      simp [effectMentions, effectSum, he]

lemma selectedEffectSum_of_not (l : List GOption) (n : String)
    (h : selectedMentions l n = false) : selectedEffectSum l n = 0 := by
  induction l with
  | nil => rfl
  | cons o rest ih =>
    simp only [selectedMentions, Bool.or_eq_false_iff] at h
    obtain ⟨h1, h2⟩ := h
    cases hs : o.selected with
    | false => simp [selectedEffectSum, hs, ih h2]
    | true =>
      rw [hs] at h1
      simp only [Bool.true_and] at h1
      simp [selectedEffectSum, hs, effectSum_of_not_mentions o.effects n h1, ih h2]

lemma dictGet_accumOptions (opts : List GOption) (m : List (String × Rat)) (n : String) :
    dictGet? (accumOptions m opts) n =
      if selectedMentions opts n then some ((dictGet? m n).getD 0 + selectedEffectSum opts n)
      else dictGet? m n := by
  induction opts generalizing m with
  | nil => simp [accumOptions, selectedMentions]
  | cons o rest ih =>
    simp only [accumOptions]
    by_cases hs : o.selected = true
    · rw [if_pos hs, ih, dictGet_addOptionEffects]
      cases hm : effectMentions o.effects n with
      | true =>
        cases hr : selectedMentions rest n with
        | true => simp [selectedMentions, selectedEffectSum, hs, hm, hr, add_assoc]
        | false =>
          simp [selectedMentions, selectedEffectSum, hs, hm, hr,
            selectedEffectSum_of_not rest n hr]
      | false =>
        simp [selectedMentions, selectedEffectSum, hs, hm,
          effectSum_of_not_mentions o.effects n hm]
    · rw [if_neg hs, ih]
      have hs' : o.selected = false := by simpa using hs
      simp [selectedMentions, selectedEffectSum, hs']

lemma accumOptions_of_none_selected (opts : List GOption) (m : List (String × Rat))
    (h : ∀ o ∈ opts, o.selected = false) : accumOptions m opts = m := by
  induction opts with
  | nil => rfl
  | cons o rest ih =>
    have ho := h o (by simp)
    simp only [accumOptions, ho]
    exact ih (fun o' ho' => h o' (by simp [ho']))

lemma scoreStep_eq (c : List (String × Rat)) (s : Rat) (e : Effect) :
    scoreStep c s e = s + entryScore c e := by
  unfold scoreStep entryScore
  cases dictGet? c e.name <;> simp

lemma foldl_scoreStep (c : List (String × Rat)) (l : List Effect) (init : Rat) :
    l.foldl (scoreStep c) init = init + (l.map (entryScore c)).sum := by
  induction l generalizing init with
  | nil => simp
  | cons e rest ih => simp [List.foldl_cons, scoreStep_eq, ih, add_assoc]

lemma entryScore_nonneg (c : List (String × Rat)) (e : Effect) :
    0 ≤ entryScore c e := by
  unfold entryScore
  cases dictGet? c e.name <;> simp [le_max_left]

lemma entryScore_le_100 (c : List (String × Rat)) (e : Effect) :
    entryScore c e ≤ 100 := by
  unfold entryScore
  cases h : dictGet? c e.name with
  | none => norm_num
  | some v =>
    simp only
    have h1 : (100 : Rat) - |v - e.value| * 10 ≤ 100 := by
      have := abs_nonneg (v - e.value)
      nlinarith
    exact max_le (by norm_num) h1

lemma sum_map_le_100 (c : List (String × Rat)) (l : List Effect) :
    (l.map (entryScore c)).sum ≤ 100 * (l.length : Rat) := by
  induction l with
  | nil => simp
  | cons e rest ih =>
    simp only [List.map_cons, List.sum_cons, List.length_cons]
    push_cast
    have := entryScore_le_100 c e
    linarith

lemma sum_map_nonneg (c : List (String × Rat)) (l : List Effect) :
    0 ≤ (l.map (entryScore c)).sum := by
  induction l with
  | nil => simp
  | cons e rest ih =>
    simp only [List.map_cons, List.sum_cons]
    have := entryScore_nonneg c e
    linarith

lemma sum_map_const_100 (c : List (String × Rat)) (l : List Effect)
    (h : ∀ e ∈ l, entryScore c e = 100) :
    (l.map (entryScore c)).sum = 100 * (l.length : Rat) := by
  induction l with
  | nil => simp
  | cons e rest ih =>
    simp only [List.map_cons, List.sum_cons, List.length_cons]
    rw [h e (by simp), ih (fun e' he' => h e' (by simp [he']))]
    push_cast
    ring

/-! ## Claim C3 -/

/-- C3: for every scene, `calculate_scene_effects` (the spec's
`accumulate`) maps each effect name to the sum of that name's values
over the selected options, in authoring order; a name carried by no
selected option is absent from the resulting dict, and with no option
selected the result is the empty dict. -/
theorem C3_accumulate_characterization (scene : Scene) :
    (∀ n, dictGet? (calculate_scene_effects scene) n =
        if selectedMentions scene.options n then some (selectedEffectSum scene.options n)
        else none) ∧
    ((∀ o ∈ scene.options, o.selected = false) → calculate_scene_effects scene = []) := by
  constructor
  · intro n
    rw [calculate_scene_effects, dictGet_accumOptions]
    simp [dictGet?]
  · intro h
    rw [calculate_scene_effects, accumOptions_of_none_selected _ _ h]

/-- Witness for C3 at a concrete scene with no selected option. -/
theorem C3_accumulate_characterization_witness :
    calculate_scene_effects sceneNoneSelected = [] :=
  (C3_accumulate_characterization sceneNoneSelected).2 (by decide)

/-! ## Claim C4 -/

/-- C4: `compare_with_expected` (the spec's `score`) is the sum over
expected entries of `max(0, 100 - |accumulated[name] - value| * 10)`
for names present in the accumulated dict; an absent name contributes
exactly 0, and when every expected value is matched exactly the score
is 100 per entry. -/
theorem C4_score_characterization (calculated : List (String × Rat)) (expected : List Effect) :
    compare_with_expected calculated expected = (expected.map (entryScore calculated)).sum ∧
    (∀ e, dictGet? calculated e.name = none → entryScore calculated e = 0) ∧
    ((∀ e ∈ expected, dictGet? calculated e.name = some e.value) →
      compare_with_expected calculated expected = 100 * (expected.length : Rat)) := by
  refine ⟨?_, ?_, ?_⟩
  · rw [compare_with_expected, foldl_scoreStep, zero_add]
  · intro e he
    simp [entryScore, he]
  · intro h
    rw [compare_with_expected, foldl_scoreStep, zero_add]
    refine sum_map_const_100 _ _ (fun e he => ?_)
    simp [entryScore, h e he]

/-- Witness for C4: an exactly-matched one-entry outcome scores 100. -/
theorem C4_score_characterization_witness :
    compare_with_expected calcGold expectedGold = 100 * ((expectedGold.length : Rat)) :=
  (C4_score_characterization calcGold expectedGold).2.2 (by decide)

/-! ## Claim C10 -/

/-- C10 (implicit): the total score is bounded,
`0 ≤ score ≤ 100 * length(expected)`; in particular it is never
negative however far the accumulated values are from the expected. -/
theorem C10_score_bounded (calculated : List (String × Rat)) (expected : List Effect) :
    0 ≤ compare_with_expected calculated expected ∧
    compare_with_expected calculated expected ≤ 100 * (expected.length : Rat) := by
  rw [compare_with_expected, foldl_scoreStep, zero_add]
  exact ⟨sum_map_nonneg _ _, sum_map_le_100 _ _⟩

/-! ## Claim C1 -/

/-- C1: in `InScene(d, s)`, `on_submit` raises nothing, stores the
accumulated effects into the current scene's `calculated_effects`,
appends the scene result record (scene index, selected option names in
authoring order, effects dict, score) to the in-progress day list,
leaves `day_results` alone and advances the scene cursor by one; if `s`
was the day's last scene index the machine is now in `DaySummary(d)`,
otherwise in `InScene(d, s + 1)`. -/
theorem C1_submit_transition (g : MainGame) (d s : Nat) (day : Day) (scene : Scene)
    (h : MainGame.InScene g d s)
    (hday : g.state.days[d]? = some day)
    (hscene : day.scenes[s]? = some scene) :
    (MainGame.on_submit g).2 = none ∧
    (MainGame.on_submit g).1.state.current_day_index = d ∧
    (MainGame.on_submit g).1.state.current_scene_index = s + 1 ∧
    (MainGame.on_submit g).1.state.day_results = g.state.day_results ∧
    (MainGame.on_submit g).1.current_day_results = g.current_day_results ++
      [{ scene_index := s
         selected_options := (scene.options.filter (fun o => o.selected)).map (fun o => o.name)
         effects := calculate_scene_effects scene
         score := compare_with_expected (calculate_scene_effects scene)
           scene.outcome.expected }] ∧
    ((MainGame.on_submit g).1.state.days[d]? =
      some ({ day with scenes := day.scenes.set s ({ scene with calculated_effects := calculate_scene_effects scene }) })) ∧
    (s + 1 = day.scenes.length → MainGame.DaySummary (MainGame.on_submit g).1 d) ∧
    (s + 1 < day.scenes.length → MainGame.InScene (MainGame.on_submit g).1 d (s + 1)) := by
  obtain ⟨hd, hs, -⟩ := h
  subst hd
  subst hs
  have hdlt : g.state.current_day_index < g.state.days.length :=
    (List.getElem?_eq_some_iff.mp hday).1
  have hstep : MainGame.on_submit g =
      ({ state :=
          { g.state with
            days := g.state.days.set g.state.current_day_index ({ day with scenes := day.scenes.set g.state.current_scene_index ({ scene with calculated_effects := calculate_scene_effects scene }) })
            current_scene_index := g.state.current_scene_index + 1 }
         current_day_results := g.current_day_results ++
           [{ scene_index := g.state.current_scene_index
              selected_options := (scene.options.filter (fun o => o.selected)).map (fun o => o.name)
              effects := calculate_scene_effects scene
              score := compare_with_expected (calculate_scene_effects scene) scene.outcome.expected }] }, none) := by
    simp [MainGame.on_submit, hday, hscene]
  rw [hstep]
  refine ⟨rfl, rfl, rfl, rfl, rfl, List.getElem?_set_self hdlt, ?_, ?_⟩
  · intro hlast
    exact ⟨rfl, _, List.getElem?_set_self hdlt, by simpa using hlast⟩
  · intro hlt
    exact ⟨rfl, rfl, _, List.getElem?_set_self hdlt, by simpa using hlt⟩

/-- Witness for C1: submitting the only scene of a fresh one-day game
raises nothing, records the selected option, and reaches
`DaySummary(0)`. -/
theorem C1_submit_transition_witness :
    (MainGame.on_submit gameStart).2 = none ∧
    (MainGame.on_submit gameStart).1.state.current_scene_index = 1 ∧
    MainGame.DaySummary (MainGame.on_submit gameStart).1 0 := by
  have h := C1_submit_transition gameStart 0 0 dayOne sceneTwoOptions
    ⟨rfl, rfl, dayOne, rfl, by decide⟩ rfl rfl
  exact ⟨h.1, h.2.2.1, h.2.2.2.2.2.2.1 rfl⟩

/-! ## Claim C2 -/

/-- C2: in `DaySummary(d)` (with every day of the loaded content
carrying at least one scene), `next_day` appends the completed day's
result list to `day_results`, clears the in-progress list, increments
the day cursor and resets the scene cursor to 0; if `d` was the last
day index the machine is now `Complete`, otherwise in
`InScene(d + 1, 0)`. -/
theorem C2_next_day_transition (g : MainGame) (d : Nat)
    (h : MainGame.DaySummary g d)
    (hwf : ∀ dy ∈ g.state.days, 0 < dy.scenes.length) :
    (MainGame.next_day g).2 = none ∧
    (MainGame.next_day g).1.state.day_results =
      g.state.day_results ++ [g.current_day_results] ∧
    (MainGame.next_day g).1.current_day_results = [] ∧
    (MainGame.next_day g).1.state.current_day_index = d + 1 ∧
    (MainGame.next_day g).1.state.current_scene_index = 0 ∧
    (MainGame.next_day g).1.state.days = g.state.days ∧
    (d + 1 = g.state.days.length → MainGame.Complete (MainGame.next_day g).1) ∧
    (d + 1 < g.state.days.length → MainGame.InScene (MainGame.next_day g).1 (d + 1) 0) := by
  obtain ⟨hd, -⟩ := h
  subst hd
  by_cases hlt : g.state.current_day_index + 1 < g.state.days.length
  · obtain ⟨dayNext, hsome⟩ : ∃ dy, g.state.days[g.state.current_day_index + 1]? = some dy :=
      ⟨_, List.getElem?_eq_getElem hlt⟩
    have hscenes : 0 < dayNext.scenes.length := hwf dayNext (List.getElem?_mem hsome)
    obtain ⟨scene0, hscene0⟩ : ∃ sc, dayNext.scenes[0]? = some sc :=
      ⟨_, List.getElem?_eq_getElem hscenes⟩
    have hstep : MainGame.next_day g =
        ({ state := { g.state with
              day_results := g.state.day_results ++ [g.current_day_results]
              current_day_index := g.state.current_day_index + 1
              current_scene_index := 0 }
           current_day_results := [] }, none) := by
      simp [MainGame.next_day, hlt, hsome, hscene0]
    rw [hstep]
    refine ⟨rfl, rfl, rfl, rfl, rfl, rfl,
      fun heq => absurd heq (Nat.ne_of_lt hlt), fun _ => ?_⟩
    exact ⟨rfl, rfl, _, hsome, hscenes⟩
  · have hstep : MainGame.next_day g =
        ({ state := { g.state with
              day_results := g.state.day_results ++ [g.current_day_results]
              current_day_index := g.state.current_day_index + 1
              current_scene_index := 0 }
           current_day_results := [] }, none) := by
      simp [MainGame.next_day, hlt]
    rw [hstep]
    refine ⟨rfl, rfl, rfl, rfl, rfl, rfl, fun heq => ?_, fun hc => absurd hc hlt⟩
    simp only [MainGame.Complete]
    omega

/-- Witness for C2: advancing past the summary of a one-day game moves
the in-progress records into `day_results` and reaches `Complete`. -/
theorem C2_next_day_transition_witness :
    (MainGame.next_day gameSummary).2 = none ∧
    (MainGame.next_day gameSummary).1.state.day_results =
      gameSummary.state.day_results ++ [gameSummary.current_day_results] ∧
    MainGame.Complete (MainGame.next_day gameSummary).1 := by
  have h := C2_next_day_transition gameSummary 0 ⟨rfl, dayOne, rfl, by decide⟩
    (by intro dy hdy; fin_cases hdy; decide)
  exact ⟨h.1, h.2.1, h.2.2.2.2.2.2.1 rfl⟩

/-! ## Claim C6 -/

/-- C6 counterexample: the claim that after `Complete` every further
transition call is a no-op (or an `InvalidTransition` failure) that
never mutates `day_idx` or `day_results` is false: `next_day` is
unguarded and, called in the terminal state of a finished one-day game,
increments the day cursor and appends (an empty list) to
`day_results`. -/
theorem C6_complete_counterexample :
    MainGame.Complete gameDone ∧
    (MainGame.next_day gameDone).1.state.current_day_index ≠
      gameDone.state.current_day_index ∧
    (MainGame.next_day gameDone).1.state.day_results ≠ gameDone.state.day_results := by
  refine ⟨?_, ?_, ?_⟩
  · show gameDone.state.days.length ≤ gameDone.state.current_day_index
    decide
  · decide
  · decide

/-- C6 (amended): in `Complete`, `on_submit` fails with a raw Python
`IndexError` (not an `InvalidTransition` error, which does not exist in
the code) before mutating anything, while `next_day` is unguarded: it
increments `current_day_index`, resets the scene cursor, and appends
the (empty) in-progress list to `day_results`, after which the machine
is still `Complete`. -/
theorem C6_complete_behavior (g : MainGame) (h : MainGame.Complete g) :
    MainGame.on_submit g = (g, some PyError.indexError) ∧
    (MainGame.next_day g).2 = none ∧
    (MainGame.next_day g).1.state.current_day_index = g.state.current_day_index + 1 ∧
    (MainGame.next_day g).1.state.current_scene_index = 0 ∧
    (MainGame.next_day g).1.state.day_results =
      g.state.day_results ++ [g.current_day_results] ∧
    (MainGame.next_day g).1.current_day_results = [] ∧
    MainGame.Complete (MainGame.next_day g).1 := by
  have hle : g.state.days.length ≤ g.state.current_day_index := h
  have hnone : g.state.days[g.state.current_day_index]? = none :=
    List.getElem?_eq_none_iff.mpr hle
  have hlt : ¬ (g.state.current_day_index + 1 < g.state.days.length) := by omega
  have hstep : MainGame.next_day g =
      ({ state := { g.state with
            day_results := g.state.day_results ++ [g.current_day_results]
            current_day_index := g.state.current_day_index + 1
            current_scene_index := 0 }
         current_day_results := [] }, none) := by
    simp [MainGame.next_day, hlt]
  rw [hstep]
  refine ⟨by simp [MainGame.on_submit, hnone], rfl, rfl, rfl, rfl, rfl, ?_⟩
  show g.state.days.length ≤ g.state.current_day_index + 1
  omega

/-- Witness for the amended C6 at a concrete finished game. -/
theorem C6_complete_behavior_witness :
    MainGame.on_submit gameDone = (gameDone, some PyError.indexError) ∧
    (MainGame.next_day gameDone).2 = none :=
  ⟨(C6_complete_behavior gameDone
      (by show gameDone.state.days.length ≤ gameDone.state.current_day_index; decide)).1,
   (C6_complete_behavior gameDone
      (by show gameDone.state.days.length ≤ gameDone.state.current_day_index; decide)).2.1⟩

/-! ## Claim C7 -/

/-- C7: the persistence round trip `load_game (save_game state)`
restores the day cursor, scene cursor, `global_stats` and `day_results`
of the original state, and the snapshot captures exactly those four
fields — in particular it is independent of the content model
(`days`). -/
theorem C7_save_load_roundtrip (state : GameState) :
    (load_game (save_game state)).current_day = state.current_day_index ∧
    (load_game (save_game state)).current_scene = state.current_scene_index ∧
    (load_game (save_game state)).global_stats = state.global_stats ∧
    (load_game (save_game state)).day_results = state.day_results ∧
    (∀ days', save_game { state with days := days' } = save_game state) :=
  ⟨rfl, rfl, rfl, rfl, fun _ => rfl⟩

/-! ## Loader lemmas (value view) -/

lemma dictGet_mem {α : Type} (l : List (String × α)) (n : String) (v : α)
    (h : dictGet? l n = some v) : (n, v) ∈ l := by
  induction l with
  | nil => simp [dictGet?] at h
  | cons p rest ih =>
    obtain ⟨k, x⟩ := p
    by_cases hk : k = n
    · subst hk
      simp [dictGet?] at h
      simp [h]
    · simp only [dictGet?, if_neg hk] at h
      simp [ih h]

lemma dictGet_name (cache : List (String × GOption)) (hwf : CacheWF cache)
    (n : String) (o : GOption) (h : dictGet? cache n = some o) : o.name = n :=
  hwf (n, o) (dictGet_mem cache n o h)

lemma resolveOptions_eq_filterMap (cache : List (String × GOption)) (ns : List String) :
    resolveOptions cache ns = ns.filterMap (fun n => (dictGet? cache n).map
      (fun o => { name := o.name, text := o.text, effects := o.effects, selected := false })) := by
  induction ns with
  | nil => rfl
  | cons n rest ih =>
    cases hc : dictGet? cache n with
    | none => simp [resolveOptions, List.filterMap_cons, hc, ih]
    | some o => simp [resolveOptions, List.filterMap_cons, hc, ih]

lemma resolveOptions_names (cache : List (String × GOption)) (hwf : CacheWF cache)
    (ns : List String) :
    (resolveOptions cache ns).map (fun o => o.name) =
      ns.filter (fun n => (dictGet? cache n).isSome) := by
  induction ns with
  | nil => rfl
  | cons n rest ih =>
    cases hc : dictGet? cache n with
    | none => simp [resolveOptions, List.filter_cons, hc, ih]
    | some o =>
      simp [resolveOptions, List.filter_cons, hc, ih, dictGet_name cache hwf n o hc]

lemma resolveOptions_selected (cache : List (String × GOption)) (ns : List String) :
    ∀ o ∈ resolveOptions cache ns, o.selected = false := by
  induction ns with
  | nil => simp [resolveOptions]
  | cons n rest ih =>
    cases hc : dictGet? cache n with
    | none => simpa [resolveOptions, hc] using ih
    | some o =>
      intro o' ho'
      simp only [resolveOptions, hc, List.mem_cons] at ho'
      rcases ho' with h | h
      · simp [h]
      · exact ih o' h

/-! ## Claim C9 -/

/-- C9: resolving a scene descriptor's option list keeps exactly the
referenced names present in the catalog, silently skipping absent names
(no error, no placeholder), in descriptor order, each resolved name
yielding a fresh copy of the catalog option with `selected = false`. -/
theorem C9_silent_skip (cache : List (String × GOption)) (d : SceneDesc)
    (hwf : CacheWF cache) :
    (get_scene cache d).options =
      d.options.filterMap (fun n => (dictGet? cache n).map
        (fun o => { name := o.name, text := o.text, effects := o.effects, selected := false })) ∧
    (get_scene cache d).options.map (fun o => o.name) =
      d.options.filter (fun n => (dictGet? cache n).isSome) ∧
    ∀ o ∈ (get_scene cache d).options, o.selected = false := by
  refine ⟨?_, ?_, ?_⟩
  · exact resolveOptions_eq_filterMap cache d.options
  · exact resolveOptions_names cache hwf d.options
  · exact resolveOptions_selected cache d.options

/-- Witness for C9: a descriptor referencing one present and one absent
name resolves to just the present one, silently. -/
theorem C9_silent_skip_witness :
    (get_scene cacheAlpha descMixed).options.map (fun o => o.name) = ["alpha"] := by
  have h := C9_silent_skip cacheAlpha descMixed (by intro p hp; fin_cases hp; rfl)
  rw [h.2.1]
  decide

/-! ## Loader lemmas (heap view) -/

lemma sceneOptionCopy_of_valid (h : Heap) (a : Nat) (o : OptCell)
    (ho : h.optCells[a]? = some o) :
    sceneOptionCopy h a =
      ({ h with optCells := h.optCells ++
          [{ name := o.name, text := o.text, effects := o.effects, selected := false }] },
       h.optCells.length) := by
  simp [sceneOptionCopy, ho]

lemma sceneOptionCopy_optCells_le (h : Heap) (a : Nat) :
    h.optCells.length ≤ (sceneOptionCopy h a).1.optCells.length := by
  unfold sceneOptionCopy
  cases h.optCells[a]? <;> simp

lemma sceneOptionCopy_preserves (h : Heap) (a i : Nat) (hi : i < h.optCells.length) :
    (sceneOptionCopy h a).1.optCells[i]? = h.optCells[i]? := by
  unfold sceneOptionCopy
  cases h.optCells[a]? <;> simp [List.getElem?_append_left hi]

lemma resolve_optCells_le (cache : List (String × Nat)) (ns : List String) (h : Heap) :
    h.optCells.length ≤ (resolveSceneOptions cache h ns).1.optCells.length := by
  induction ns generalizing h with
  | nil => exact le_refl _
  | cons n rest ih =>
    cases hc : dictGet? cache n with
    | none => simpa [resolveSceneOptions, hc] using ih h
    | some a =>
      simp only [resolveSceneOptions, hc]
      exact le_trans (sceneOptionCopy_optCells_le h a) (ih (sceneOptionCopy h a).1)

lemma resolve_preserves (cache : List (String × Nat)) (ns : List String) (h : Heap)
    (i : Nat) (hi : i < h.optCells.length) :
    (resolveSceneOptions cache h ns).1.optCells[i]? = h.optCells[i]? := by
  induction ns generalizing h with
  | nil => rfl
  | cons n rest ih =>
    cases hc : dictGet? cache n with
    | none => simpa [resolveSceneOptions, hc] using ih h hi
    | some a =>
      simp only [resolveSceneOptions, hc]
      rw [ih (sceneOptionCopy h a).1
        (lt_of_lt_of_le hi (sceneOptionCopy_optCells_le h a))]
      exact sceneOptionCopy_preserves h a i hi

lemma resolve_refs_bounds (cache : List (String × Nat)) (ns : List String) (h : Heap)
    (hwf : CacheAddrWF cache h) (x : Nat)
    (hx : x ∈ (resolveSceneOptions cache h ns).2) :
    h.optCells.length ≤ x ∧ x < (resolveSceneOptions cache h ns).1.optCells.length := by
  induction ns generalizing h with
  | nil => simp [resolveSceneOptions] at hx
  | cons n rest ih =>
    cases hc : dictGet? cache n with
    | none =>
      simp only [resolveSceneOptions, hc] at hx ⊢
      exact ih h hwf hx
    | some a =>
      have ha : a < h.optCells.length := hwf (n, a) (dictGet_mem cache n a hc)
      obtain ⟨oc, hsome⟩ : ∃ oc, h.optCells[a]? = some oc :=
        ⟨_, List.getElem?_eq_getElem ha⟩
      have hcopy := sceneOptionCopy_of_valid h a oc hsome
      have hlen : (sceneOptionCopy h a).1.optCells.length = h.optCells.length + 1 := by
        rw [hcopy]; simp
      have haddr : (sceneOptionCopy h a).2 = h.optCells.length := by rw [hcopy]
      have hwf' : CacheAddrWF cache (sceneOptionCopy h a).1 := by
        intro p hp
        exact lt_of_lt_of_le (hwf p hp) (sceneOptionCopy_optCells_le h a)
      simp only [resolveSceneOptions, hc, List.mem_cons] at hx
      simp only [resolveSceneOptions, hc]
      rcases hx with hx | hx
      · subst hx
        rw [haddr]
        refine ⟨le_refl _, ?_⟩
        calc h.optCells.length < (sceneOptionCopy h a).1.optCells.length := by omega
          _ ≤ _ := resolve_optCells_le cache rest (sceneOptionCopy h a).1
      · have := ih (sceneOptionCopy h a).1 hwf' hx
        exact ⟨by omega, this.2⟩

lemma toggleSelected_ne (h : Heap) (a b : Nat) (hne : b ≠ a) :
    selectedAt (toggleSelected h a) b = selectedAt h b := by
  unfold toggleSelected selectedAt
  cases ho : h.optCells[a]? with
  | none => rfl
  | some o => simp [List.getElem?_set_ne (fun e => hne e.symm)]

lemma setEffectValue_optCells (h : Heap) (i : Nat) (v : Rat) :
    (setEffectValue h i v).optCells = h.optCells := by
  unfold setEffectValue
  cases h.effCells[i]? <;> rfl

lemma readOptionEffects_congr (h : Heap) (x y : Nat) (o1 o2 : OptCell)
    (hx : h.optCells[x]? = some o1) (hy : h.optCells[y]? = some o2)
    (he : o1.effects = o2.effects) :
    readOptionEffects h x = readOptionEffects h y := by
  simp [readOptionEffects, hx, hy, he]

/-! ## Claim C5 -/

/-- C5 counterexample: in the loaded two-scene model, scene 1's option
copy (address 1) and scene 2's copy (address 2) both hold the effect
address list `[0]` — the catalog's own effect object.  Mutating that
effect's value through scene 1's option changes what scene 2's copy and
the catalog template (option address 0) observe, refuting the claim
that each scene option carries a deep copy of its effects. -/
theorem C5_deep_copy_counterexample :
    (heapScene2.optCells[1]?).map (fun o => o.effects) = some [0] ∧
    (heapScene2.optCells[2]?).map (fun o => o.effects) = some [0] ∧
    (heapScene2.optCells[0]?).map (fun o => o.effects) = some [0] ∧
    readOptionEffects heapMutated 2 ≠ readOptionEffects heapScene2 2 ∧
    readOptionEffects heapMutated 0 ≠ readOptionEffects heapScene2 0 := by
  refine ⟨?_, ?_, ?_, ?_, ?_⟩ <;> decide

/-- C5 (amended): the option attached to a scene is a fresh `Option`
object with `selected = false` and a fresh (shallow-copied) effects
*list*, but the `Effect` objects themselves are shared with the catalog
template: the copy holds the same effect addresses, so after any
mutation of an effect value the copy and the template observe
identical effects. -/
theorem C5_shallow_copy_shares_effects (h : Heap) (a : Nat) (o : OptCell)
    (ho : h.optCells[a]? = some o) :
    (sceneOptionCopy h a).2 = h.optCells.length ∧
    (sceneOptionCopy h a).1.optCells[(sceneOptionCopy h a).2]? =
      some { name := o.name, text := o.text, effects := o.effects, selected := false } ∧
    (sceneOptionCopy h a).1.effCells = h.effCells ∧
    (∀ i v, readOptionEffects (setEffectValue (sceneOptionCopy h a).1 i v)
        (sceneOptionCopy h a).2 =
      readOptionEffects (setEffectValue (sceneOptionCopy h a).1 i v) a) := by
  have ha : a < h.optCells.length := (List.getElem?_eq_some_iff.mp ho).1
  rw [sceneOptionCopy_of_valid h a o ho]
  refine ⟨rfl, List.getElem?_concat_length _ _, rfl, ?_⟩
  intro i v
  refine readOptionEffects_congr _ _ _
    { name := o.name, text := o.text, effects := o.effects, selected := false } o
    ?_ ?_ rfl
  · rw [setEffectValue_optCells]
    exact List.getElem?_concat_length _ _
  · rw [setEffectValue_optCells]
    exact (List.getElem?_append_left ha).trans ho

/-- Witness for the amended C5 at the concrete one-option catalog. -/
theorem C5_shallow_copy_shares_effects_witness :
    (sceneOptionCopy heapCatalog 0).2 = 1 ∧
    (∀ i v, readOptionEffects (setEffectValue (sceneOptionCopy heapCatalog 0).1 i v)
        (sceneOptionCopy heapCatalog 0).2 =
      readOptionEffects (setEffectValue (sceneOptionCopy heapCatalog 0).1 i v) 0) := by
  have h := C5_shallow_copy_shares_effects heapCatalog 0
    { name := "alpha", text := "t", effects := [0], selected := false } (by decide)
  exact ⟨h.1, h.2.2.2⟩

/-! ## Claim C8 -/

/-- C8: option objects resolved for two scenes, and catalog templates,
occupy pairwise distinct heap addresses, so toggling `selected` on one
scene's option instance leaves the `selected` value of any of the other
scene's instances and of any catalog template unchanged. -/
theorem C8_toggle_isolated (h : Heap) (cache : List (String × Nat))
    (names1 names2 : List String) (hwf : CacheAddrWF cache h)
    (a b c : Nat) (nc : String)
    (ha : a ∈ (resolveSceneOptions cache h names1).2)
    (hb : b ∈ (resolveSceneOptions cache
      (resolveSceneOptions cache h names1).1 names2).2)
    (hc : (nc, c) ∈ cache) :
    a ≠ b ∧ a ≠ c ∧
    selectedAt (toggleSelected (resolveSceneOptions cache
        (resolveSceneOptions cache h names1).1 names2).1 a) b =
      selectedAt (resolveSceneOptions cache
        (resolveSceneOptions cache h names1).1 names2).1 b ∧
    selectedAt (toggleSelected (resolveSceneOptions cache
        (resolveSceneOptions cache h names1).1 names2).1 a) c =
      selectedAt (resolveSceneOptions cache
        (resolveSceneOptions cache h names1).1 names2).1 c := by
  have hb1 := resolve_refs_bounds cache names1 h hwf a ha
  have hwf1 : CacheAddrWF cache (resolveSceneOptions cache h names1).1 := by
    intro p hp
    exact lt_of_lt_of_le (hwf p hp) (resolve_optCells_le cache names1 h)
  have hb2 := resolve_refs_bounds cache names2 _ hwf1 b hb
  have hab : a ≠ b := Nat.ne_of_lt (lt_of_lt_of_le hb1.2 hb2.1)
  have hca : c < h.optCells.length := hwf (nc, c) hc
  have hac : a ≠ c := (Nat.ne_of_lt (lt_of_lt_of_le hca hb1.1)).symm
  exact ⟨hab, hac,
    toggleSelected_ne _ a b (fun e => hab e.symm),
    toggleSelected_ne _ a c (fun e => hac e.symm)⟩

/-- Witness for C8: in the concrete two-scene heap, toggling scene 1's
option (address 1) leaves scene 2's option (address 2) and the catalog
template (address 0) unchanged. -/
theorem C8_toggle_isolated_witness :
    selectedAt (toggleSelected heapScene2 1) 2 = selectedAt heapScene2 2 ∧
    selectedAt (toggleSelected heapScene2 1) 0 = selectedAt heapScene2 0 := by
  have h := C8_toggle_isolated heapCatalog cacheAddrAlpha ["alpha"] ["alpha"]
    (by intro p hp; fin_cases hp; decide) 1 2 0 "alpha"
    (by decide) (by decide) (by decide)
  exact ⟨h.2.2.1, h.2.2.2⟩

end PsiGen
